import Mathlib

/-!
Verification of the MKR5/DART protocol engine of the UNG-S3 repository.

The development shallowly embeds the protocol core:

* `utils.py` — `calc_crc` (CRC-16-CCITT, poly 0x1021, init 0x0000),
  `_int_to_bcd`, `bcd_pack`, `bcd_unpack`;
* `driver.py` — `MKR5Driver._next_tx`, the packet construction inside
  `MKR5Driver.send_command`, and `MKR5Driver.parse_response`;
* `serial_io/driver.py` — the duplicate `MKR5Driver.parse_response`.

Byte strings are `List ℕ` (Python `bytes` elements are 0..255; theorems
restrict ranges where it matters), numeric protocol values are exact
rationals `ℚ`, and Python exceptions are an explicit error type: Python
expressions that raise are modelled in `Except`.  Python slice semantics
(silent truncation) and subscript semantics (`IndexError` out of range)
are preserved exactly as the interpreter would behave.
-/

set_option maxRecDepth 16384

namespace UNG

/-- Python runtime errors the embedded code can raise: `IndexError` from an
out-of-range subscript, `ValueError` from `int("")`, `RuntimeError` raised
explicitly by `driver.parse_response`, and `NameError` from
`serial_io/driver.py` referencing the never-imported `settings` module. -/
inductive PyErr where
  | indexError
  | valueError
  | runtimeError
  | nameError
deriving DecidableEq

/-- One round of the inner bit loop of `utils.calc_crc` (lines 14-19):
shift the register left, xor the polynomial `0x1021` when the top bit was
set, and mask back to 16 bits. -/
def crcStep (crc : ℕ) : ℕ :=
  if crc &&& 0x8000 ≠ 0 then ((crc <<< 1) ^^^ 0x1021) &&& 0xFFFF
  else (crc <<< 1) &&& 0xFFFF

/-- Folding one input byte into the register (`utils.calc_crc`, line 13
then eight rounds of the inner loop): the byte is xored into the high
byte of the 16-bit register. -/
def crcByte (crc b : ℕ) : ℕ := crcStep^[8] (crc ^^^ (b <<< 8))

/-- Embedding of `utils.calc_crc`: 16-bit CRC-CCITT, polynomial `0x1021`,
initial register `0x0000`, most-significant-bit first, no final xor. -/
def calc_crc (data : List ℕ) : ℕ := data.foldl crcByte 0

/-- The checksum as the specification words it (section 4.1), written
independently of the source: explicit recursion over the byte list, an
inner round counter, and masking by `% 2 ^ 16` after each step. -/
def specRounds : ℕ → ℕ → ℕ
  | 0, r => r
  | k + 1, r =>
      specRounds k
        (if r &&& 0x8000 ≠ 0 then ((r <<< 1) ^^^ 0x1021) % 2 ^ 16 else (r <<< 1) % 2 ^ 16)

/-- Byte recursion of the specification-worded checksum. -/
def specCrcGo : List ℕ → ℕ → ℕ
  | [], r => r
  | b :: rest, r => specCrcGo rest (specRounds 8 (r ^^^ (b <<< 8)))

/-- Specification-worded checksum of section 4.1: register starts at
`0x0000`, each byte is xored into the high byte, then eight
shift-and-conditionally-xor rounds follow. -/
def checksumSpec (data : List ℕ) : ℕ := specCrcGo data 0

/-- Little-endian decimal digits with an explicit fuel argument: the digit
recursion behind Python's decimal rendering of a non-negative integer. -/
def decDigitsAux : ℕ → ℕ → List ℕ
  | 0, _ => []
  | fuel + 1, n => if n = 0 then [] else n % 10 :: decDigitsAux fuel (n / 10)

/-- Big-endian decimal digit list of `n`, as Python's `str(n)` renders it
(`0` renders as the single digit `0`). -/
def decDigits (n : ℕ) : List ℕ :=
  if n = 0 then [0] else (decDigitsAux n n).reverse

/-- Python `f"{value:0{digit_count}d}"` for non-negative `value`: the
decimal rendering zero-padded on the left to at least `digit_count`
digits; a longer value keeps all of its digits. -/
def padDigits (value digit_count : ℕ) : List ℕ :=
  List.replicate (digit_count - (decDigits value).length) 0 ++ decDigits value

/-- Consecutive digit pairs, each parsed back as a decimal number: this is
`int(s[i : i + 2], 10)` in `utils._int_to_bcd`, which reads the pair of
characters as a base-ten numeral (so the pair `"55"` yields 55 = 0x37,
not the nibble-packed byte 0x55). -/
def pairUp : List ℕ → List ℕ
  | a :: b :: rest => (10 * a + b) :: pairUp rest
  | _ => []

/-- Embedding of `utils._int_to_bcd`: render `value` zero-padded to
`digit_count` digits and take the digit pairs at positions
`0, 2, ..., digit_count - 2` of the rendered string.  Callers always pass
an even `digit_count`. -/
def int_to_bcd (value digit_count : ℕ) : List ℕ :=
  pairUp ((padDigits value digit_count).take digit_count)

/-- Python's `round`: round half to even, on exact rational inputs. -/
def pyRound (q : ℚ) : ℤ :=
  if Int.fract q < 1 / 2 then ⌊q⌋
  else if 1 / 2 < Int.fract q then ⌊q⌋ + 1
  else if ⌊q⌋ % 2 = 0 then ⌊q⌋ else ⌊q⌋ + 1

/-- Embedding of `utils.bcd_pack`: scale by `10 ^ decimals`, round, and
render through `_int_to_bcd` into `length * 2` digit pairs.  Numeric
values are modelled as exact rationals; the model covers the non-negative
values the protocol carries. -/
def bcd_pack (number : ℚ) (decimals length : ℕ) : List ℕ :=
  int_to_bcd (pyRound (number * 10 ^ decimals)).toNat (length * 2)

/-- Python `f"{byte:02d}"`: the decimal rendering of one byte value,
zero-padded to width two (values 100-255 render with three digits). -/
def byteDecChars (b : ℕ) : List ℕ :=
  if b < 100 then [b / 10, b % 10] else decDigits b

/-- Value of a big-endian decimal digit list, as Python's `int` parses the
joined digit string. -/
def digitsVal (ds : List ℕ) : ℕ := ds.foldl (fun a d => 10 * a + d) 0

/-- Embedding of `utils.bcd_unpack`: render every byte with `f"{b:02d}"`,
join, parse the joined string as an integer and divide by
`10 ^ decimals`.  On an empty input the joined string is empty and
`int("")` raises `ValueError`. -/
def bcd_unpack (bcd : List ℕ) (decimals : ℕ) : Except PyErr ℚ :=
  if bcd = [] then .error .valueError
  else .ok ((digitsVal (List.flatten (bcd.map byteDecChars)) : ℚ) / 10 ^ decimals)

/-- Decimal-place configuration from `settings.py`. -/
def PRICE_DECIMALS : ℕ := 2

/-- Decimal-place configuration from `settings.py`. -/
def VOL_DECIMALS : ℕ := 3

/-- Decimal-place configuration from `settings.py`. -/
def AMT_DECIMALS : ℕ := 2

/-- Command transaction code `CD1` from `driver.py`. -/
def CD1 : ℕ := 0x01

/-- Embedding of `driver.MKR5Driver._next_tx`: the cyclic block counter
update `(tx % 0x0F) + 1`; the stored counter equals the returned value. -/
def nextTx (tx_number : ℕ) : ℕ := tx_number % 0x0F + 1

/-- Packet construction inside `driver.MKR5Driver.send_command` (lines
53-68): address `0x50 + pump_id`, control byte
`0x80 | ((txn & 0x0F) << 4)`, the single transaction `CD1, 1, dcc`, the
CRC over address..last data byte appended low byte first, then the
terminator `0x03 0xFA`.  `txn` is the sequence number `_next_tx`
returned. -/
def buildPacket (pump_id txn dcc : ℕ) : List ℕ :=
  let addr := 0x50 + pump_id
  let ctrl := 0x80 ||| ((txn &&& 0x0F) <<< 4)
  let block := [addr, ctrl] ++ [CD1, 1, dcc]
  let crc := calc_crc block
  block ++ [crc &&& 0xFF, (crc >>> 8) &&& 0xFF] ++ [0x03, 0xFA]

theorem crcStep_eq_spec (r : ℕ) :
    crcStep r = (if r &&& 0x8000 ≠ 0 then ((r <<< 1) ^^^ 0x1021) % 2 ^ 16
                 else (r <<< 1) % 2 ^ 16) := by
  have h : (0xFFFF : ℕ) = 2 ^ 16 - 1 := by norm_num
  unfold crcStep
  split <;> rw [h, Nat.and_pow_two_sub_one_eq_mod]

theorem iterate_crcStep (k r : ℕ) : crcStep^[k] r = specRounds k r := by
  induction k generalizing r with
  | zero => rfl
  | succ k ih =>
      rw [Function.iterate_succ_apply, ih, specRounds, ← crcStep_eq_spec]

theorem foldl_crcByte_eq (data : List ℕ) :
    ∀ r, data.foldl crcByte r = specCrcGo data r := by
  induction data with
  | nil => intro r; rfl
  | cons b rest ih =>
      intro r
      rw [List.foldl_cons, ih, specCrcGo, crcByte, iterate_crcStep]

theorem crcStep_lt (r : ℕ) : crcStep r < 2 ^ 16 := by
  unfold crcStep
  split <;> exact Nat.and_lt_two_pow _ (by norm_num)

theorem crcByte_lt (r b : ℕ) : crcByte r b < 2 ^ 16 := by
  unfold crcByte
  rw [show (8 : ℕ) = 7 + 1 from rfl, Function.iterate_succ_apply']
  exact crcStep_lt _

theorem foldl_crcByte_lt (data : List ℕ) :
    ∀ r, r < 2 ^ 16 → data.foldl crcByte r < 2 ^ 16 := by
  induction data with
  | nil => intro r h; exact h
  | cons b rest ih => intro r _; exact ih _ (crcByte_lt r b)

/-- Claim C2: `calc_crc` computes exactly the section-4.1 reference
checksum — register starts at `0x0000`, each byte is xored into the high
byte, eight shift/xor-`0x1021` rounds follow with 16-bit masking after
each step, and there is no final xor — and the result always lies in
`0..0xFFFF`. -/
theorem claim2_crc_matches_reference (data : List ℕ) :
    calc_crc data = checksumSpec data ∧ calc_crc data < 2 ^ 16 :=
  ⟨foldl_crcByte_eq data 0, foldl_crcByte_lt data 0 (by norm_num)⟩

/-- Claim C1: for pump index 1, sequence number 1 and the status-query
command transaction `[0x01, 0x01, 0x00]`, the packet built by
`send_command` is exactly address `0x51`, control `0x90`, the
transaction bytes, the CRC of `0x51 0x90 0x01 0x01 0x00` low byte first
(the terminator is excluded from the CRC), then `0x03 0xFA`. -/
theorem claim1_golden_vector :
    buildPacket 1 1 0x00
      = [0x51, 0x90, 0x01, 0x01, 0x00, 0xFD, 0x7D, 0x03, 0xFA] ∧
    0x80 ||| (((1 : ℕ) &&& 0x0F) <<< 4) = 0x90 ∧
    calc_crc [0x51, 0x90, 0x01, 0x01, 0x00] = 0x7D * 256 + 0xFD := by
  refine ⟨?_, by decide, by decide⟩
  decide

/-- Claim C9: the cyclic sequence counter of the link session stays in
range — from any counter state the allocation returns a value in
`1..15`, the successor of a state in `1..14` is that state plus one, the
successor of `15` wraps to `1`, and the first allocation from the
initial state `0` is `1`. -/
theorem claim9_sequence_counter (s : ℕ) :
    (1 ≤ nextTx s ∧ nextTx s ≤ 15) ∧
    (1 ≤ s → s ≤ 14 → nextTx s = s + 1) ∧
    nextTx 15 = 1 ∧ nextTx 0 = 1 := by
  unfold nextTx
  omega

/-- Witness for claim C9 at the concrete state 7. -/
theorem claim9_witness : (1 ≤ nextTx 7 ∧ nextTx 7 ≤ 15) ∧ nextTx 7 = 8 :=
  ⟨(claim9_sequence_counter 7).1, (claim9_sequence_counter 7).2.1 (by decide) (by decide)⟩

/-- Value of a little-endian decimal digit list. -/
def valLE (l : List ℕ) : ℕ := l.foldr (fun d a => 10 * a + d) 0

theorem digitsVal_reverse (l : List ℕ) : digitsVal l.reverse = valLE l := by
  unfold digitsVal valLE
  rw [List.foldl_reverse]

theorem valLE_decDigitsAux : ∀ fuel n : ℕ, n ≤ fuel → valLE (decDigitsAux fuel n) = n := by
  intro fuel
  induction fuel with
  | zero => intro n h; simp [decDigitsAux, valLE]; omega
  | succ fuel ih =>
      intro n h
      by_cases hn : n = 0
      · simp [decDigitsAux, hn, valLE]
      · simp only [decDigitsAux, if_neg hn]
        have hv : valLE (n % 10 :: decDigitsAux fuel (n / 10)) =
            10 * valLE (decDigitsAux fuel (n / 10)) + n % 10 := rfl
        have hfuel : n / 10 ≤ fuel := by
          have := Nat.div_lt_self (Nat.pos_of_ne_zero hn) (by norm_num : 1 < 10)
          omega
        rw [hv, ih (n / 10) hfuel]
        omega

theorem digitsVal_decDigits (n : ℕ) : digitsVal (decDigits n) = n := by
  unfold decDigits
  by_cases hn : n = 0
  · simp [hn, digitsVal]
  · rw [if_neg hn, digitsVal_reverse]
    exact valLE_decDigitsAux n n le_rfl

theorem decDigitsAux_lt10 : ∀ fuel n : ℕ, ∀ x ∈ decDigitsAux fuel n, x < 10 := by
  intro fuel
  induction fuel with
  | zero => intro n x hx; simp [decDigitsAux] at hx
  | succ fuel ih =>
      intro n x hx
      by_cases hn : n = 0
      · simp [decDigitsAux, hn] at hx
      · simp only [decDigitsAux, if_neg hn, List.mem_cons] at hx
        rcases hx with h | h
        · subst h; exact Nat.mod_lt n (by norm_num)
        · exact ih (n / 10) x h

theorem decDigits_lt10 (n : ℕ) : ∀ x ∈ decDigits n, x < 10 := by
  intro x hx
  unfold decDigits at hx
  by_cases hn : n = 0
  · rw [if_pos hn] at hx; simp at hx; omega
  · rw [if_neg hn, List.mem_reverse] at hx
    exact decDigitsAux_lt10 n n x hx

theorem decDigitsAux_length : ∀ fuel n d : ℕ,
    n ≤ fuel → n < 10 ^ d → (decDigitsAux fuel n).length ≤ d := by
  intro fuel
  induction fuel with
  | zero => intro n d _ _; simp [decDigitsAux]
  | succ fuel ih =>
      intro n d hle hlt
      by_cases hn : n = 0
      · simp [decDigitsAux, hn]
      · simp only [decDigitsAux, if_neg hn, List.length_cons]
        cases d with
        | zero => simp at hlt; omega
        | succ d' =>
            have h1 : n / 10 ≤ fuel := by
              have := Nat.div_lt_self (Nat.pos_of_ne_zero hn) (by norm_num : 1 < 10)
              omega
            have h2 : n / 10 < 10 ^ d' := by
              rw [Nat.div_lt_iff_lt_mul (by norm_num : 0 < 10)]
              calc n < 10 ^ (d' + 1) := hlt
                _ = 10 ^ d' * 10 := by ring
            have := ih (n / 10) d' h1 h2
            omega

theorem decDigits_length_le (n d : ℕ) (h1 : 0 < d) (h2 : n < 10 ^ d) :
    (decDigits n).length ≤ d := by
  unfold decDigits
  by_cases hn : n = 0
  · rw [if_pos hn]; simpa using h1
  · rw [if_neg hn, List.length_reverse]
    exact decDigitsAux_length n n d le_rfl h2

theorem padDigits_length (v dc : ℕ) (h : (decDigits v).length ≤ dc) :
    (padDigits v dc).length = dc := by
  unfold padDigits
  rw [List.length_append, List.length_replicate]
  omega

theorem padDigits_lt10 (v dc : ℕ) : ∀ x ∈ padDigits v dc, x < 10 := by
  intro x hx
  unfold padDigits at hx
  rw [List.mem_append] at hx
  rcases hx with h | h
  · have := List.eq_of_mem_replicate h; omega
  · exact decDigits_lt10 v x h

theorem foldl_digit_replicate_zero :
    ∀ m : ℕ, List.foldl (fun a d => 10 * a + d) 0 (List.replicate m 0) = 0 := by
  intro m
  induction m with
  | zero => rfl
  | succ m ih => rw [List.replicate_succ, List.foldl_cons]; simpa using ih

theorem digitsVal_padDigits (v dc : ℕ) : digitsVal (padDigits v dc) = v := by
  unfold padDigits digitsVal
  rw [List.foldl_append, foldl_digit_replicate_zero]
  exact digitsVal_decDigits v

theorem pairUp_length : ∀ l : List ℕ, (pairUp l).length = l.length / 2
  | [] => rfl
  | [_] => by simp [pairUp]
  | _ :: _ :: rest => by
      simp only [pairUp, List.length_cons]
      rw [pairUp_length rest]
      omega

theorem pairUp_unparse : ∀ l : List ℕ, (∀ x ∈ l, x < 10) → l.length % 2 = 0 →
    List.flatten ((pairUp l).map byteDecChars) = l
  | [], _, _ => rfl
  | [_], _, h => absurd h (by simp)
  | a :: b :: rest, hd, hl => by
      have ha : a < 10 := hd a (by simp)
      have hb : b < 10 := hd b (by simp)
      simp only [pairUp, List.map_cons, List.flatten_cons]
      rw [byteDecChars, if_pos (by omega : 10 * a + b < 100)]
      have hdiv : (10 * a + b) / 10 = a := by omega
      have hmod : (10 * a + b) % 10 = b := by omega
      rw [hdiv, hmod]
      have hrest := pairUp_unparse rest (fun x hx => hd x (by simp [hx]))
        (by simp only [List.length_cons] at hl; omega)
      simp [hrest]

theorem unpack_int_to_bcd (k n d : ℕ) (hn : 0 < n) (hk : k < 10 ^ (n * 2)) :
    bcd_unpack (int_to_bcd k (n * 2)) d = .ok ((k : ℚ) / 10 ^ d) := by
  have hlen : (decDigits k).length ≤ n * 2 := decDigits_length_le k (n * 2) (by omega) hk
  have hplen : (padDigits k (n * 2)).length = n * 2 := padDigits_length _ _ hlen
  have htake : (padDigits k (n * 2)).take (n * 2) = padDigits k (n * 2) :=
    List.take_of_length_le (le_of_eq hplen)
  unfold int_to_bcd
  rw [htake]
  have hne : pairUp (padDigits k (n * 2)) ≠ [] := by
    intro h
    have hl := pairUp_length (padDigits k (n * 2))
    rw [h, hplen] at hl
    simp at hl
    omega
  unfold bcd_unpack
  rw [if_neg hne, pairUp_unparse _ (padDigits_lt10 k (n * 2)) (by rw [hplen]; omega),
    digitsVal_padDigits]

theorem pyRound_natCast (k : ℕ) : pyRound (k : ℚ) = k := by
  unfold pyRound
  rw [Int.fract_natCast, Int.floor_natCast]
  norm_num

/-- Claim C3: the BCD codec round-trips — for every non-negative value
`v` exactly representable with `d` decimal places (`v = k / 10 ^ d`)
whose scaled integer `k` fits in `n * 2` decimal digits,
`bcd_unpack (bcd_pack v d n) d` succeeds and returns `v`.  This holds
because `bcd_pack` and `bcd_unpack` agree on the same byte
interpretation (each byte carries the numeric value of one digit pair). -/
theorem claim3_bcd_roundtrip (k d n : ℕ) (v : ℚ) (hn : 1 ≤ n)
    (hk : k < 10 ^ (n * 2)) (hv : v = (k : ℚ) / 10 ^ d) :
    bcd_unpack (bcd_pack v d n) d = .ok v := by
  have hscale : v * 10 ^ d = ((k : ℕ) : ℚ) := by
    rw [hv, div_mul_cancel₀]
    positivity
  unfold bcd_pack
  rw [hscale, pyRound_natCast, Int.toNat_natCast, unpack_int_to_bcd k n d hn hk, hv]

/-- Witness for claim C3: 655.36 with two decimals in a three-byte field
round-trips. -/
theorem claim3_witness :
    bcd_unpack (bcd_pack ((65536 : ℚ) / 100) 2 3) 2 = .ok ((65536 : ℚ) / 100) :=
  claim3_bcd_roundtrip 65536 2 3 ((65536 : ℚ) / 100) (by norm_num) (by norm_num)
    (by norm_num)

/-- Claim C4 is false on the code: `bcd_pack` does not nibble-pack.
Packing 0.55 with two decimals into one byte yields the byte 55 (0x37,
high nibble 3, low nibble 7) because `_int_to_bcd` parses the digit pair
`"55"` as a base-ten numeral, not as two nibbles; the claim's expected
byte is 0x55 = 85. -/
theorem claim4_pack_is_not_nibble_packed :
    bcd_pack ((11 : ℚ) / 20) 2 1 = [55] ∧
    (55 : ℕ) >>> 4 = 3 ∧ (55 : ℕ) &&& 0x0F = 7 ∧ (55 : ℕ) ≠ 0x55 := by
  refine ⟨?_, by decide, by decide, by decide⟩
  unfold bcd_pack
  have h : ((11 : ℚ) / 20) * 10 ^ (2 : ℕ) = ((55 : ℕ) : ℚ) := by norm_num
  rw [h, pyRound_natCast, Int.toNat_natCast]
  decide

/-- Claim C5 is false on the code: an overflowing value is silently
mangled, not rejected.  Packing 10000.00 with two decimals into a
three-byte field renders the seven-digit string `"1000000"` and takes
the pairs at positions 0, 2, 4, producing `[10, 0, 0]` — and unpacking
those bytes yields 1000, not 10000.  No `EncodingError` exists anywhere
in the code. -/
theorem claim5_overflow_silently_truncates :
    bcd_pack (10000 : ℚ) 2 3 = [10, 0, 0] ∧
    bcd_unpack [10, 0, 0] 2 = .ok (1000 : ℚ) := by
  constructor
  · unfold bcd_pack
    have h : (10000 : ℚ) * 10 ^ (2 : ℕ) = ((1000000 : ℕ) : ℚ) := by norm_num
    rw [h, pyRound_natCast, Int.toNat_natCast]
    decide
  · unfold bcd_unpack
    rw [if_neg (by decide)]
    have h : digitsVal (List.flatten ([10, 0, 0].map byteDecChars)) = 100000 := by decide
    rw [h]
    have h2 : ((100000 : ℕ) : ℚ) / 10 ^ (2 : ℕ) = 1000 := by norm_num
    rw [h2]

/-- Claim C6 is false on the code: `bcd_unpack` never rejects a nibble in
10..15.  The byte 0x1A (low nibble 10) is rendered by `f"{byte:02d}"` as
the decimal string `"26"` and silently accepted; moreover even a valid
nibble-BCD byte 0x55 is read as its binary value 85, not as the digit
pair 55.  No `MalformedBcd` exists anywhere in the code. -/
theorem claim6_unpack_accepts_bad_nibbles :
    bcd_unpack [0x1A] 0 = .ok (26 : ℚ) ∧ (0x1A : ℕ) &&& 0x0F = 10 ∧
    bcd_unpack [0x55] 0 = .ok (85 : ℚ) := by
  refine ⟨?_, by decide, ?_⟩
  · unfold bcd_unpack
    rw [if_neg (by decide)]
    have h : digitsVal (List.flatten ([0x1A].map byteDecChars)) = 26 := by decide
    rw [h]
    have h2 : ((26 : ℕ) : ℚ) / 10 ^ (0 : ℕ) = 26 := by norm_num
    rw [h2]
  · unfold bcd_unpack
    rw [if_neg (by decide)]
    have h : digitsVal (List.flatten ([0x55].map byteDecChars)) = 85 := by decide
    rw [h]
    have h2 : ((85 : ℕ) : ℚ) / 10 ^ (0 : ℕ) = 85 := by norm_num
    rw [h2]

deriving instance DecidableEq for Except

/-- Status text mapping of `driver.parse_response` (DC1); an unmapped
code becomes the explicit string `UNKNOWN(code)`, mirroring
`mapping.get(st, f"UNKNOWN({st})")`. -/
def statusStr (st : ℕ) : String :=
  if st = 0 then "NOT_PROGRAMMED" else if st = 1 then "RESET"
  else if st = 2 then "AUTHORIZED" else if st = 4 then "FILLING"
  else if st = 5 then "FILLING_COMPLETE" else if st = 6 then "MAX_REACHED"
  else if st = 7 then "SWITCHED_OFF" else "UNKNOWN(" ++ toString st ++ ")"

/-- Upper-case hexadecimal digit character. -/
def hexChar (n : ℕ) : Char := if n < 10 then Char.ofNat (48 + n) else Char.ofNat (55 + n)

/-- Python `f"{b:02X}"` for a byte value: two upper-case hex characters. -/
def hexByte (b : ℕ) : List Char := [hexChar (b / 16), hexChar (b % 16)]

/-- DC7 grade extraction in `driver.parse_response`: the trailing 15
bytes of the content (all of it when shorter); a non-zero byte at index
`idx` sets bit `idx` of the mask. -/
def gradesOf (content : List ℕ) : ℕ :=
  ((content.drop (content.length - 15)).enum).foldl
    (fun g p => if p.2 ≠ 0 then g ||| (1 <<< p.1) else g) 0

/-- Result dictionary of `driver.parse_response`: every key the loop can
set, absent (`none`) until the corresponding transaction is decoded.
`current_nozzle` is doubly optional because Python stores `None` for
nozzle number 0 (`noz or None`). -/
structure PumpData where
  pump_status : Option String := none
  current_volume : Option ℚ := none
  current_amount : Option ℚ := none
  current_nozzle : Option (Option ℕ) := none
  nozzle_out : Option Bool := none
  current_price : Option ℚ := none
  grades_mask : Option ℕ := none
  pump_identity : Option String := none
deriving DecidableEq

/-- One iteration body of the `driver.parse_response` while-loop (lines
100-144): dispatch on the transaction code and update the result dict.
Python slice semantics (silent truncation) and subscript semantics
(`IndexError` when out of range) are preserved; `bcd_unpack` of an empty
slice raises `ValueError` via `int("")`. -/
def applyTxn (trans : ℕ) (content : List ℕ) (d : PumpData) : Except PyErr PumpData :=
  if trans = 0x01 then
    match content with
    | [] => .error .indexError
    | st :: _ => .ok { d with pump_status := some (statusStr st) }
  else if trans = 0x02 then do
    let vol ← bcd_unpack (content.take 4) VOL_DECIMALS
    let amt ← bcd_unpack ((content.drop 4).take 4) AMT_DECIMALS
    .ok { d with current_volume := some vol, current_amount := some amt }
  else if trans = 0x03 then do
    let price ← bcd_unpack (content.take 3) PRICE_DECIMALS
    match content.drop 3 with
    | [] => .error .indexError
    | nb :: _ =>
        .ok { d with
          current_nozzle := some (if nb &&& 0x0F = 0 then none else some (nb &&& 0x0F)),
          nozzle_out := some (((nb &&& 0x10) >>> 4) != 0),
          current_price := some price }
  else if trans = 0x07 then
    .ok { d with grades_mask := some (gradesOf content) }
  else if trans = 0x09 then
    .ok { d with pump_identity := some (String.mk (List.flatten (content.map hexByte))) }
  else
    .ok d

/-- The `driver.parse_response` transaction loop (lines 98-145), the fuel
bounding the iteration count (each iteration consumes at least two
bytes, so fuel equal to the list length always suffices).  Reading the
length byte at `i + 1` past the end raises `IndexError`; the content
slice `core[i+2 : i+2+ln]` truncates silently. -/
def parseLoopAux : ℕ → List ℕ → PumpData → Except PyErr PumpData
  | _, [], d => .ok d
  | _, [_], _ => .error .indexError
  | 0, _ :: _ :: _, _ => .error .indexError
  | fuel + 1, tcode :: ln :: rest, d => do
      let d' ← applyTxn tcode (rest.take ln) d
      parseLoopAux fuel (rest.drop ln) d'

/-- The transaction loop started with sufficient fuel. -/
def parseLoop (core : List ℕ) (d : PumpData) : Except PyErr PumpData :=
  parseLoopAux core.length core d

/-- Python `resp[2:-2]` in `driver.parse_response`: the region the loop
iterates over.  Note it still contains the two transmitted CRC bytes. -/
def respCore (resp : List ℕ) : List ℕ := (resp.drop 2).take (resp.length - 4)

/-- Python `core[-2] | (core[-1] << 8)`: the transmitted checksum, little
endian. -/
def recvCrc (resp : List ℕ) : ℕ :=
  (respCore resp).getD ((respCore resp).length - 2) 0 |||
    ((respCore resp).getD ((respCore resp).length - 1) 0) <<< 8

/-- Embedding of `driver.MKR5Driver.parse_response`: strip address,
control and terminator, read the transmitted checksum (an `IndexError`
when fewer than two bytes remain), recompute the checksum over
`resp[0:-4]` and raise `RuntimeError` on disagreement, else run the
transaction loop over `core` — which still includes the CRC bytes. -/
def parse_response (resp : List ℕ) : Except PyErr PumpData :=
  if (respCore resp).length < 2 then .error .indexError
  else if recvCrc resp ≠ calc_crc (resp.take (resp.length - 4)) then .error .runtimeError
  else parseLoop (respCore resp) {}

/-- Result dictionary of `serial_io/driver.py`'s `parse_response`. -/
structure SerialData where
  error : Option String := none
  pump_status_code : Option ℕ := none
  pump_status : Option String := none
  current_nozzle : Option (Option ℕ) := none
  nozzle_out : Option Bool := none
  current_price : Option ℚ := none
  current_volume : Option ℚ := none
  current_amount : Option ℚ := none
deriving DecidableEq

/-- Status text mapping of `serial_io/driver.py` (spelled with spaces,
unlike the underscored strings of `driver.py`). -/
def serialStatusStr (st : ℕ) : String :=
  if st = 0 then "PUMP NOT PROGRAMMED" else if st = 1 then "RESET"
  else if st = 2 then "AUTHORIZED" else if st = 4 then "FILLING"
  else if st = 5 then "FILLING COMPLETE" else if st = 6 then "MAX REACHED"
  else if st = 7 then "SWITCHED OFF" else "UNKNOWN(" ++ toString st ++ ")"

/-- One iteration body of the `serial_io/driver.py` response loop.  That
file never imports `settings`, so the 0x03 branch raises `NameError`
when it reaches `settings.PRICE_DECIMALS` (after its `len(content) >= 4`
guard) and the 0x02 branch always raises `NameError` at
`settings.VOL_DECIMALS`. -/
def applySerialTxn (trans : ℕ) (content : List ℕ) (d : SerialData) :
    Except PyErr SerialData :=
  if trans = 0x01 then
    match content with
    | [] => .error .indexError
    | st :: _ =>
        .ok { d with pump_status_code := some st, pump_status := some (serialStatusStr st) }
  else if trans = 0x03 then
    if content.length ≥ 4 then .error .nameError else .ok d
  else if trans = 0x02 then .error .nameError
  else .ok d

/-- The `serial_io/driver.py` transaction loop (lines 97-130), fuelled
like `parseLoopAux`. -/
def serialLoopAux : ℕ → List ℕ → SerialData → Except PyErr SerialData
  | _, [], d => .ok d
  | _, [_], _ => .error .indexError
  | 0, _ :: _ :: _, _ => .error .indexError
  | fuel + 1, tcode :: ln :: rest, d => do
      let d' ← applySerialTxn tcode (rest.take ln) d
      serialLoopAux fuel (rest.drop ln) d'

/-- The serial transaction loop started with sufficient fuel. -/
def serialLoop (payload : List ℕ) (d : SerialData) : Except PyErr SerialData :=
  serialLoopAux payload.length payload d

/-- Python terminator stripping in `serial_io`'s `parse_response`: drop
the trailing `0x03 0xFA` when present, else keep the raw bytes. -/
def serialCoreData (response : List ℕ) : List ℕ :=
  if response.getD (response.length - 2) 0 = 0x03 ∧
      response.getD (response.length - 1) 0 = 0xFA
  then response.take (response.length - 2) else response

/-- Python `core_data[:-2]`: everything before the transmitted CRC. -/
def serialCoreWoCrc (response : List ℕ) : List ℕ :=
  (serialCoreData response).take ((serialCoreData response).length - 2)

/-- Python `core_wo_crc[2:]`: the transaction region after address and
control. -/
def serialPayload (response : List ℕ) : List ℕ := (serialCoreWoCrc response).drop 2

/-- The CRC comparison of `serial_io`'s `parse_response`:
`((calc & 0xFF) != recv_lo) or (((calc >> 8) & 0xFF) != recv_hi)`. -/
def serialCrcMismatch (response : List ℕ) : Bool :=
  (calc_crc (serialCoreWoCrc response) &&& 0xFF
      != (serialCoreData response).getD ((serialCoreData response).length - 2) 0) ||
  ((calc_crc (serialCoreWoCrc response) >>> 8) &&& 0xFF
      != (serialCoreData response).getD ((serialCoreData response).length - 1) 0)

/-- Embedding of `serial_io.driver.MKR5Driver.parse_response`: a response
shorter than 5 bytes returns the empty dict; otherwise the terminator is
stripped when present, a CRC mismatch stores `"CRC_ERROR"` under the
`error` key (parsing continues for diagnostics), reading `core_wo_crc[1]`
raises `IndexError` when fewer than two bytes remain (the dict under
construction is discarded by the exception, so checking first is
observationally identical), and the loop then decodes the payload. -/
def serial_parse_response (response : List ℕ) : Except PyErr SerialData :=
  if response.length < 5 then .ok {}
  else if (serialCoreWoCrc response).length < 2 then .error .indexError
  else serialLoop (serialPayload response)
    (if serialCrcMismatch response then { error := some "CRC_ERROR" } else {})

/-- Claim C7 is false on the code: a transaction whose declared length
runs past the available bytes is not rejected.  In this block the record
`0x09` declares five content bytes while only one precedes the CRC; the
slice silently truncates, so the loop decodes `pump_identity` from the
one remaining byte plus the two CRC bytes (`0xAA 0x38 0x0C` → "AA380C")
and returns success.  No `FramingError` exists anywhere in the code; a
truncated two-byte header raises `IndexError` instead. -/
theorem claim7_overrun_is_decoded_not_rejected :
    parse_response [0x51, 0x90, 0x09, 0x05, 0xAA, 0x38, 0x0C, 0x03, 0xFA]
      = .ok { pump_identity := some "AA380C" } ∧
    calc_crc [0x51, 0x90, 0x09, 0x05, 0xAA] = 0x0C38 := by
  constructor
  · decide
  · decide

/-- Counterexample to claim C8 as stated: on a block whose transmitted
checksum disagrees with the recomputed one, `driver.parse_response`
raises `RuntimeError` before decoding anything, returning no partial
diagnostic data — even though the same payload decodes to a status field
when the checksum is correct (second conjunct). -/
theorem claim8_counterexample :
    parse_response [0x51, 0x90, 0x01, 0x01, 0x02, 0x00, 0x00, 0x03, 0xFA]
      = .error .runtimeError ∧
    parse_response [0x51, 0x90, 0x01, 0x01, 0x02, 0xBF, 0x5D, 0x03, 0xFA]
      = .ok { pump_status := some "AUTHORIZED" } := by
  constructor
  · decide
  · decide

theorem applySerialTxn_keeps_error (t : ℕ) (c : List ℕ) (d d' : SerialData)
    (h : applySerialTxn t c d = .ok d') : d'.error = d.error := by
  unfold applySerialTxn at h
  split_ifs at h
  · cases c with
    | nil => exact Except.noConfusion h
    | cons st rest => injection h with e; subst e; rfl
  · injection h with e; subst e; rfl
  · injection h with e; subst e; rfl

theorem serialLoopAux_keeps_error : ∀ (fuel : ℕ) (p : List ℕ) (d res : SerialData),
    serialLoopAux fuel p d = .ok res → res.error = d.error := by
  intro fuel
  induction fuel with
  | zero =>
      intro p d res h
      cases p with
      | nil => injection h with e; subst e; rfl
      | cons a tail =>
          cases tail with
          | nil => exact Except.noConfusion h
          | cons b r => exact Except.noConfusion h
  | succ fuel ih =>
      intro p d res h
      cases p with
      | nil => injection h with e; subst e; rfl
      | cons a tail =>
          cases tail with
          | nil => exact Except.noConfusion h
          | cons b r =>
              replace h : (applySerialTxn a (r.take b) d >>= fun d' =>
                  serialLoopAux fuel (r.drop b) d') = .ok res := h
              cases happ : applySerialTxn a (r.take b) d with
              | error e => rw [happ] at h; exact Except.noConfusion h
              | ok d' =>
                  rw [happ] at h
                  replace h : serialLoopAux fuel (r.drop b) d' = .ok res := h
                  rw [ih (r.drop b) d' res h, applySerialTxn_keeps_error a (r.take b) d d' happ]

/-- Claim C8, amended: the two duplicated drivers disagree.  The main
driver's `parse_response` raises `RuntimeError` as soon as the recomputed
checksum disagrees with the transmitted one, returning no partial data at
all; the `serial_io` driver's `parse_response` instead records
`"CRC_ERROR"` under the `error` key and continues decoding, and the
transaction loop never clears that key, so the decoded diagnostic fields
are returned together with the checksum failure marker. -/
theorem claim8_crc_mismatch_behavior :
    (∀ resp : List ℕ, 2 ≤ (respCore resp).length →
        recvCrc resp ≠ calc_crc (resp.take (resp.length - 4)) →
        parse_response resp = .error .runtimeError) ∧
    (∀ response : List ℕ, 5 ≤ response.length →
        2 ≤ (serialCoreWoCrc response).length →
        serialCrcMismatch response = true →
        serial_parse_response response
          = serialLoop (serialPayload response) { error := some "CRC_ERROR" }) ∧
    (∀ (fuel : ℕ) (payload : List ℕ) (d res : SerialData),
        serialLoopAux fuel payload d = .ok res → res.error = d.error) := by
  refine ⟨?_, ?_, serialLoopAux_keeps_error⟩
  · intro resp h1 h2
    unfold parse_response
    rw [if_neg (by omega), if_pos h2]
  · intro response h1 h2 h3
    unfold serial_parse_response
    rw [if_neg (by omega), if_neg (by omega), if_pos h3]

/-- Witness for claim C8 on a concrete corrupted block: the main driver
raises; the serial driver returns the decoded status together with the
`CRC_ERROR` marker. -/
theorem claim8_witness :
    parse_response [0x51, 0x81, 0x01, 0x01, 0x02, 0x00, 0x00, 0x03, 0xFA]
      = .error .runtimeError ∧
    serial_parse_response [0x51, 0x81, 0x01, 0x01, 0x02, 0x00, 0x00, 0x03, 0xFA]
      = .ok { error := some "CRC_ERROR", pump_status_code := some 2,
              pump_status := some "AUTHORIZED" } := by
  constructor
  · exact claim8_crc_mismatch_behavior.1 _ (by decide) (by decide)
  · have h := claim8_crc_mismatch_behavior.2.1
      [0x51, 0x81, 0x01, 0x01, 0x02, 0x00, 0x00, 0x03, 0xFA]
      (by decide) (by decide) (by decide)
    rw [h]
    decide

/-- Wire serialization of a record list: `[code, length, payload...]` per
record, the length byte equal to the payload length (the "records all lie
within bounds" premise of the claim). -/
def encodeTxns (ts : List (ℕ × List ℕ)) : List ℕ :=
  ts.foldr (fun p acc => p.1 :: p.2.length :: (p.2 ++ acc)) []

/-- Effect of the `driver.parse_response` loop on an already-split record
list: the handlers applied left to right. -/
def applyAll : List (ℕ × List ℕ) → PumpData → Except PyErr PumpData
  | [], d => .ok d
  | p :: rest, d => do
      let d' ← applyTxn p.1 p.2 d
      applyAll rest d'

theorem parseLoopAux_nil (fuel : ℕ) (d : PumpData) : parseLoopAux fuel [] d = .ok d := by
  cases fuel <;> rfl

theorem parseLoopAux_encode : ∀ (ts : List (ℕ × List ℕ)) (fuel : ℕ) (d : PumpData),
    (encodeTxns ts).length ≤ fuel →
    parseLoopAux fuel (encodeTxns ts) d = applyAll ts d := by
  intro ts
  induction ts with
  | nil => intro fuel d _; exact parseLoopAux_nil fuel d
  | cons p rest ih =>
      obtain ⟨t, c⟩ := p
      intro fuel d hle
      have hlen : (encodeTxns ((t, c) :: rest)).length
          = c.length + (encodeTxns rest).length + 2 := by
        show (t :: c.length :: (c ++ encodeTxns rest)).length = _
        simp [List.length_append]
      cases fuel with
      | zero => rw [hlen] at hle; omega
      | succ f =>
          show (applyTxn t ((c ++ encodeTxns rest).take c.length) d >>= fun d' =>
              parseLoopAux f ((c ++ encodeTxns rest).drop c.length) d') = _
          rw [List.take_left, List.drop_left]
          unfold applyAll
          cases happ : applyTxn t c d with
          | error e => rfl
          | ok d' =>
              show parseLoopAux f (encodeTxns rest) d' = applyAll rest d'
              exact ih f d' (by rw [hlen] at hle; omega)

theorem parseLoop_encode (ts : List (ℕ × List ℕ)) (d : PumpData) :
    parseLoop (encodeTxns ts) d = applyAll ts d :=
  parseLoopAux_encode ts (encodeTxns ts).length d le_rfl

theorem applyAll_append : ∀ (xs ys : List (ℕ × List ℕ)) (d : PumpData),
    applyAll (xs ++ ys) d = (applyAll xs d).bind (fun d' => applyAll ys d') := by
  intro xs
  induction xs with
  | nil => intro ys d; rfl
  | cons p rest ih =>
      intro ys d
      show (applyTxn p.1 p.2 d >>= fun d' => applyAll (rest ++ ys) d')
          = ((applyTxn p.1 p.2 d >>= fun d' => applyAll rest d').bind
              fun d' => applyAll ys d')
      cases happ : applyTxn p.1 p.2 d with
      | error e => rfl
      | ok d' => exact ih ys d'

/-- Agreement of two result dicts on exactly the keys the transaction
code `t` writes (all keys, vacuously, for an unhandled code). -/
def sameFieldsFor (t : ℕ) (d₁ d₂ : PumpData) : Prop :=
  (t = 0x01 → d₁.pump_status = d₂.pump_status) ∧
  (t = 0x02 → d₁.current_volume = d₂.current_volume ∧
      d₁.current_amount = d₂.current_amount) ∧
  (t = 0x03 → d₁.current_nozzle = d₂.current_nozzle ∧ d₁.nozzle_out = d₂.nozzle_out ∧
      d₁.current_price = d₂.current_price) ∧
  (t = 0x07 → d₁.grades_mask = d₂.grades_mask) ∧
  (t = 0x09 → d₁.pump_identity = d₂.pump_identity)

theorem sameFieldsFor_refl (t : ℕ) (d : PumpData) : sameFieldsFor t d d :=
  ⟨fun _ => rfl, fun _ => ⟨rfl, rfl⟩, fun _ => ⟨rfl, rfl, rfl⟩, fun _ => rfl, fun _ => rfl⟩

theorem sameFieldsFor_symm {t : ℕ} {a b : PumpData} (h : sameFieldsFor t a b) :
    sameFieldsFor t b a := by
  obtain ⟨h1, h2, h3, h7, h9⟩ := h
  exact ⟨fun ht => (h1 ht).symm,
    fun ht => ⟨(h2 ht).1.symm, (h2 ht).2.symm⟩,
    fun ht => ⟨(h3 ht).1.symm, (h3 ht).2.1.symm, (h3 ht).2.2.symm⟩,
    fun ht => (h7 ht).symm, fun ht => (h9 ht).symm⟩

theorem sameFieldsFor_trans {t : ℕ} {a b c : PumpData}
    (hab : sameFieldsFor t a b) (hbc : sameFieldsFor t b c) : sameFieldsFor t a c := by
  obtain ⟨h1, h2, h3, h7, h9⟩ := hab
  obtain ⟨g1, g2, g3, g7, g9⟩ := hbc
  exact ⟨fun ht => (h1 ht).trans (g1 ht),
    fun ht => ⟨(h2 ht).1.trans (g2 ht).1, (h2 ht).2.trans (g2 ht).2⟩,
    fun ht => ⟨(h3 ht).1.trans (g3 ht).1, (h3 ht).2.1.trans (g3 ht).2.1,
      (h3 ht).2.2.trans (g3 ht).2.2⟩,
    fun ht => (h7 ht).trans (g7 ht), fun ht => (h9 ht).trans (g9 ht)⟩

theorem applyTxn_fields_determined (t : ℕ) (c : List ℕ) (dA dB dC dD : PumpData)
    (h1 : applyTxn t c dA = .ok dB) (h2 : applyTxn t c dC = .ok dD) :
    sameFieldsFor t dB dD := by
  unfold applyTxn at h1 h2
  split_ifs at h1 h2 with ht1 ht2 ht3 ht7 ht9
  · subst ht1
    cases c with
    | nil => exact Except.noConfusion h1
    | cons st rest =>
        injection h1 with e1
        injection h2 with e2
        subst e1; subst e2
        exact ⟨fun _ => rfl, fun hx => absurd hx (by decide), fun hx => absurd hx (by decide),
          fun hx => absurd hx (by decide), fun hx => absurd hx (by decide)⟩
  · subst ht2
    cases hvol : bcd_unpack (c.take 4) VOL_DECIMALS with
    | error e => rw [hvol] at h1; exact Except.noConfusion h1
    | ok v =>
        rw [hvol] at h1 h2
        cases hamt : bcd_unpack ((c.drop 4).take 4) AMT_DECIMALS with
        | error e => rw [hamt] at h1; exact Except.noConfusion h1
        | ok a =>
            rw [hamt] at h1 h2
            injection h1 with e1
            injection h2 with e2
            subst e1; subst e2
            exact ⟨fun hx => absurd hx (by decide), fun _ => ⟨rfl, rfl⟩,
              fun hx => absurd hx (by decide), fun hx => absurd hx (by decide),
              fun hx => absurd hx (by decide)⟩
  · subst ht3
    cases hpr : bcd_unpack (c.take 3) PRICE_DECIMALS with
    | error e => rw [hpr] at h1; exact Except.noConfusion h1
    | ok p =>
        rw [hpr] at h1 h2
        cases hdr : c.drop 3 with
        | nil => rw [hdr] at h1; exact Except.noConfusion h1
        | cons nb rest2 =>
            rw [hdr] at h1 h2
            injection h1 with e1
            injection h2 with e2
            subst e1; subst e2
            exact ⟨fun hx => absurd hx (by decide), fun hx => absurd hx (by decide),
              fun _ => ⟨rfl, rfl, rfl⟩, fun hx => absurd hx (by decide),
              fun hx => absurd hx (by decide)⟩
  · subst ht7
    injection h1 with e1
    injection h2 with e2
    subst e1; subst e2
    exact ⟨fun hx => absurd hx (by decide), fun hx => absurd hx (by decide),
      fun hx => absurd hx (by decide), fun _ => rfl, fun hx => absurd hx (by decide)⟩
  · subst ht9
    injection h1 with e1
    injection h2 with e2
    subst e1; subst e2
    exact ⟨fun hx => absurd hx (by decide), fun hx => absurd hx (by decide),
      fun hx => absurd hx (by decide), fun hx => absurd hx (by decide), fun _ => rfl⟩
  · injection h1 with e1
    injection h2 with e2
    subst e1; subst e2
    exact ⟨fun hx => absurd hx ht1, fun hx => absurd hx ht2, fun hx => absurd hx ht3,
      fun hx => absurd hx ht7, fun hx => absurd hx ht9⟩

theorem applyTxn_frame (t t' : ℕ) (c : List ℕ) (d d' : PumpData)
    (h : applyTxn t' c d = .ok d') (hne : t' ≠ t) : sameFieldsFor t d d' := by
  unfold applyTxn at h
  split_ifs at h with ht1 ht2 ht3 ht7 ht9
  · cases c with
    | nil => exact Except.noConfusion h
    | cons st rest =>
        injection h with e
        subst e
        exact ⟨fun hx => absurd (ht1.trans hx.symm) hne, fun _ => ⟨rfl, rfl⟩,
          fun _ => ⟨rfl, rfl, rfl⟩, fun _ => rfl, fun _ => rfl⟩
  · cases hvol : bcd_unpack (c.take 4) VOL_DECIMALS with
    | error e => rw [hvol] at h; exact Except.noConfusion h
    | ok v =>
        rw [hvol] at h
        cases hamt : bcd_unpack ((c.drop 4).take 4) AMT_DECIMALS with
        | error e => rw [hamt] at h; exact Except.noConfusion h
        | ok a =>
            rw [hamt] at h
            injection h with e
            subst e
            exact ⟨fun _ => rfl, fun hx => absurd (ht2.trans hx.symm) hne,
              fun _ => ⟨rfl, rfl, rfl⟩, fun _ => rfl, fun _ => rfl⟩
  · cases hpr : bcd_unpack (c.take 3) PRICE_DECIMALS with
    | error e => rw [hpr] at h; exact Except.noConfusion h
    | ok p =>
        rw [hpr] at h
        cases hdr : c.drop 3 with
        | nil => rw [hdr] at h; exact Except.noConfusion h
        | cons nb rest2 =>
            rw [hdr] at h
            injection h with e
            subst e
            exact ⟨fun _ => rfl, fun _ => ⟨rfl, rfl⟩,
              fun hx => absurd (ht3.trans hx.symm) hne, fun _ => rfl, fun _ => rfl⟩
  · injection h with e
    subst e
    exact ⟨fun _ => rfl, fun _ => ⟨rfl, rfl⟩, fun _ => ⟨rfl, rfl, rfl⟩,
      fun hx => absurd (ht7.trans hx.symm) hne, fun _ => rfl⟩
  · injection h with e
    subst e
    exact ⟨fun _ => rfl, fun _ => ⟨rfl, rfl⟩, fun _ => ⟨rfl, rfl, rfl⟩,
      fun _ => rfl, fun hx => absurd (ht9.trans hx.symm) hne⟩
  · injection h with e
    subst e
    exact sameFieldsFor_refl t d

theorem applyAll_frame (t : ℕ) : ∀ (ts : List (ℕ × List ℕ)) (d res : PumpData),
    applyAll ts d = .ok res → (∀ p ∈ ts, p.1 ≠ t) → sameFieldsFor t d res := by
  intro ts
  induction ts with
  | nil =>
      intro d res h _
      injection h with e
      subst e
      exact sameFieldsFor_refl t d
  | cons p rest ih =>
      intro d res h hne
      replace h : (applyTxn p.1 p.2 d >>= fun d' => applyAll rest d') = .ok res := h
      cases happ : applyTxn p.1 p.2 d with
      | error e => rw [happ] at h; exact Except.noConfusion h
      | ok d' =>
          rw [happ] at h
          replace h : applyAll rest d' = .ok res := h
          exact sameFieldsFor_trans
            (applyTxn_frame t p.1 p.2 d d' happ (hne p (List.mem_cons_self p rest)))
            (ih d' res h (fun q hq => hne q (List.mem_cons_of_mem p hq)))

/-- Claim C10: in the transaction decode loop of `parse_response`, a later
record of a given code overwrites the fields decoded from any earlier
record of that code — for every serialized record list whose length bytes
are consistent (records lie within bounds), the fields belonging to code
`t` in the final result equal the fields produced by the last `t`-record
alone, regardless of what precedes it. -/
theorem claim10_last_record_wins (ts₁ ts₂ : List (ℕ × List ℕ)) (t : ℕ) (c : List ℕ)
    (d₀ res dA dB : PumpData)
    (hres : parseLoop (encodeTxns (ts₁ ++ (t, c) :: ts₂)) d₀ = .ok res)
    (hafter : ∀ p ∈ ts₂, p.1 ≠ t)
    (hr : applyTxn t c dA = .ok dB) :
    sameFieldsFor t res dB := by
  rw [parseLoop_encode, applyAll_append] at hres
  cases h1 : applyAll ts₁ d₀ with
  | error e => rw [h1] at hres; exact Except.noConfusion hres
  | ok d₁ =>
      rw [h1] at hres
      replace hres : (applyTxn t c d₁ >>= fun d' => applyAll ts₂ d') = .ok res := hres
      cases h2 : applyTxn t c d₁ with
      | error e => rw [h2] at hres; exact Except.noConfusion hres
      | ok d₂ =>
          rw [h2] at hres
          replace hres : applyAll ts₂ d₂ = .ok res := hres
          exact sameFieldsFor_trans
            (sameFieldsFor_symm (applyAll_frame t ts₂ d₂ res hres hafter))
            (applyTxn_fields_determined t c d₁ d₂ dA dB h2 hr)

/-- Witness for claim C10: two status records followed by an identity
record; the decoded status is the one of the second status record. -/
theorem claim10_witness :
    sameFieldsFor 0x01
      { pump_status := some "FILLING_COMPLETE", pump_identity := some "AB" }
      { pump_status := some "FILLING_COMPLETE" } :=
  claim10_last_record_wins [(0x01, [0x02])] [(0x09, [0xAB])] 0x01 [0x05] {}
    { pump_status := some "FILLING_COMPLETE", pump_identity := some "AB" } {}
    { pump_status := some "FILLING_COMPLETE" }
    (by decide) (by decide) (by decide)

end UNG
